import Mathlib

/-!
# Verification of the portfolio_tracker distribution-data parser

A shallow embedding of the distribution-file parser of the
`weste2533/portfolio_tracker` repository, together with proofs about it.

The embedded code is the header-driven parser variant
(`processDistributionData`, `formatDate`, `isMoneyMarketFund` from the
distribution-processor module) and the per-ticker loader
(`loadFundByTicker`).  JavaScript strings are modelled as Lean `String`
values manipulated through their character lists; JavaScript numbers are
modelled as exact scaled decimals (`Dec` below), with `NaN` represented
by `Option.none` wherever the source checks `isNaN`.  The `new Date(...)`
builtin used as a last-resort date parser is an external platform
collaborator and is modelled as an explicit oracle parameter
`jsDate : String → Option (Nat × Nat × Nat)` returning
`(getFullYear, getMonth, getDate)` for strings it can parse and `none`
for strings yielding an `Invalid Date`.
-/

/-! ## JavaScript string primitives -/

/-- `String.prototype.split(sep)` for a one-character separator, over the
character list of the string. -/
def splitOnChar (sep : Char) : List Char → List (List Char)
  | [] => [[]]
  | c :: cs =>
    if c = sep then [] :: splitOnChar sep cs
    else
      match splitOnChar sep cs with
      | [] => [[c]]
      | l :: ls => (c :: l) :: ls

/-- `s.split(sep)` returning strings, as in JavaScript (never empty;
`"".split(sep) == [""]`). -/
def jsSplit (sep : Char) (s : String) : List String :=
  (splitOnChar sep s.data).map (fun l => ⟨l⟩)

/-- `String.prototype.trim()`: strips leading and trailing whitespace
(space, tab, CR, LF; the Unicode-only whitespace JavaScript also strips
does not occur in the data files). -/
def jsTrim (s : String) : String :=
  ⟨((s.data.dropWhile Char.isWhitespace).reverse.dropWhile Char.isWhitespace).reverse⟩

/-- ASCII lowering of one character, as `String.prototype.toLowerCase`
acts on the ASCII range. -/
def lowerChar (c : Char) : Char :=
  if 'A' ≤ c ∧ c ≤ 'Z' then Char.ofNat (c.toNat + 32) else c

/-- `String.prototype.toLowerCase()` on ASCII content. -/
def jsToLower (s : String) : String := ⟨s.data.map lowerChar⟩

/-- Remove the first occurrence of a character, as
`String.prototype.replace('$', '')` removes only the first `'$'`. -/
def removeFirst (c : Char) : List Char → List Char
  | [] => []
  | x :: xs => if x = c then xs else x :: removeFirst c xs

/-- `s.replace('$', '')`. -/
def removeDollar (s : String) : String := ⟨removeFirst '$' s.data⟩

/-- Whether `needle` occurs at the head of the list. -/
def leadsWith : List Char → List Char → Bool
  | [], _ => true
  | _ :: _, [] => false
  | a :: as, b :: bs => a == b && leadsWith as bs

/-- `String.prototype.includes(needle)`: substring containment. -/
def containsSub (needle : List Char) : List Char → Bool
  | [] => needle.isEmpty
  | c :: cs => leadsWith needle (c :: cs) || containsSub needle cs

/-! ## JavaScript numbers as exact scaled decimals

`Dec` represents the number `num / 10 ^ pow`.  All arithmetic the parser
performs (addition of parsed amounts, decimal-literal parsing, powers of
ten from exponents) stays inside this fragment, so the embedding is exact
where IEEE floats would round; none of the verified properties depends on
rounding. -/

structure Dec where
  num : Int
  pow : Nat
deriving DecidableEq

/-- The rational value of a scaled decimal. -/
def Dec.val (a : Dec) : ℚ := (a.num : ℚ) / (10 : ℚ) ^ a.pow

/-- Addition (JavaScript `+` on the embedded values). -/
def Dec.add (a b : Dec) : Dec :=
  if b.pow ≤ a.pow then ⟨a.num + b.num * (10 : Int) ^ (a.pow - b.pow), a.pow⟩
  else ⟨a.num * (10 : Int) ^ (b.pow - a.pow) + b.num, b.pow⟩

/-- Negation (JavaScript unary minus). -/
def Dec.neg (a : Dec) : Dec := ⟨-a.num, a.pow⟩

/-- Numeric value of a digit string. -/
def digitsToNat (l : List Char) : Nat :=
  l.foldl (fun a c => a * 10 + (c.toNat - '0'.toNat)) 0

/-- The decimal written with integer digits `ip` and fraction digits `fp`. -/
def Dec.ofDigits (ip fp : List Char) : Dec :=
  ⟨(digitsToNat ip * 10 ^ fp.length + digitsToNat fp : Nat), fp.length⟩

/-- Scaling by `10 ^ e` for an integer exponent. -/
def Dec.scaleExp (a : Dec) (e : Int) : Dec :=
  match e with
  | .ofNat n => ⟨a.num * (10 : Int) ^ n, a.pow⟩
  | .negSucc n => ⟨a.num, a.pow + (n + 1)⟩

/-! ## `parseFloat` and `parseInt`

`parseFloat` parses the longest numeric-literal prefix after leading
whitespace and yields `NaN` (here `none`) when there is none.  `Infinity`
literals and hexadecimal forms are not modelled: the fund data files
contain only finite decimal tokens, and every token fed to these
functions in this development is either a decimal literal or fails to
parse in JavaScript as well. -/

/-- Parse an unsigned decimal mantissa (`digits`, `digits.digits`,
`.digits`, `digits.`); returns the value and the unconsumed suffix. -/
def parseMantissa (cs : List Char) : Option (Dec × List Char) :=
  let ip := cs.takeWhile Char.isDigit
  let rest1 := cs.drop ip.length
  match rest1 with
  | '.' :: cs2 =>
    let fp := cs2.takeWhile Char.isDigit
    if ip.isEmpty && fp.isEmpty then none
    else some (Dec.ofDigits ip fp, cs2.drop fp.length)
  | _ => if ip.isEmpty then none else some (Dec.ofDigits ip [], rest1)

/-- Apply exponent digits (with the given sign) to a mantissa; an `e`
with no digits after it is ignored, as in JavaScript. -/
def applyExpAux (d : Dec) (sign : Int) (cs : List Char) : Dec :=
  let ds := cs.takeWhile Char.isDigit
  if ds.isEmpty then d else d.scaleExp (sign * (digitsToNat ds : Int))

/-- Exponent part after the `e`/`E` marker: optional sign, then digits. -/
def applyExpSigned (d : Dec) (cs : List Char) : Dec :=
  match cs with
  | '+' :: r => applyExpAux d 1 r
  | '-' :: r => applyExpAux d (-1) r
  | r => applyExpAux d 1 r

/-- Optional `e`/`E` exponent following the mantissa. -/
def applyExponent (d : Dec) (cs : List Char) : Dec :=
  match cs with
  | 'e' :: rest => applyExpSigned d rest
  | 'E' :: rest => applyExpSigned d rest
  | _ => d

/-- JavaScript `parseFloat`; `none` models `NaN`. -/
def jsParseFloat (s : String) : Option Dec :=
  let cs := s.data.dropWhile Char.isWhitespace
  match cs with
  | '+' :: r => (parseMantissa r).map (fun p => applyExponent p.1 p.2)
  | '-' :: r => (parseMantissa r).map (fun p => Dec.neg (applyExponent p.1 p.2))
  | _ => (parseMantissa cs).map (fun p => applyExponent p.1 p.2)

/-- Leading decimal digits as an integer, or `none` for `NaN`. -/
def intFromDigits (cs : List Char) : Option Int :=
  let ds := cs.takeWhile Char.isDigit
  if ds.isEmpty then none else some (digitsToNat ds : Int)

/-- JavaScript `parseInt` with no radix argument on non-`0x` input;
`none` models `NaN`. -/
def jsParseInt (s : String) : Option Int :=
  let cs := s.data.dropWhile Char.isWhitespace
  match cs with
  | '+' :: r => intFromDigits r
  | '-' :: r => (intFromDigits r).map (fun n => -n)
  | _ => intFromDigits cs

/-! ## The date normalizer `formatDate` -/

/-- Whether the list has, at its head, the shape `\d{2}/\d{2}/\d{2}`
(two digits, slash, two digits, slash, two digits). -/
def shortDateAt (l : List Char) : Bool :=
  decide (8 ≤ l.length) &&
  (l.getD 0 ' ').isDigit && (l.getD 1 ' ').isDigit && (l.getD 2 ' ' == '/') &&
  (l.getD 3 ' ').isDigit && (l.getD 4 ' ').isDigit && (l.getD 5 ' ' == '/') &&
  (l.getD 6 ' ').isDigit && (l.getD 7 ' ').isDigit

/-- The unanchored regular-expression test
`dateStr.match(/\d{2}\/\d{2}\/\d{2}/)`: the pattern occurs somewhere in
the string. -/
def hasShortDatePattern : List Char → Bool
  | [] => false
  | c :: cs => shortDateAt (c :: cs) || hasShortDatePattern cs

/-- `n.toString().padStart(2, '0')`. -/
def pad2 (n : Nat) : String :=
  if n < 10 then "0" ++ toString n else toString n

/-- The source's `formatDate(dateStr)`.

`jsDate` is the `new Date(dateStr)` platform builtin, modelled as an
oracle returning `(getFullYear, getMonth, getDate)` or `none` for an
`Invalid Date`.  `none` as the overall result models the `null` return.
Falsiness of the argument (`!dateStr`) is the emptiness test for string
input.  The two-digit-year branch destructures `dateStr.split('/')`; it
is reachable only when the string contains a slash, in which case the
`includes('/')` branch has already returned (this dead-code fact is
proved below), so the `getD ""` reading of a missing component is never
exercised. -/
def formatDate (jsDate : String → Option (Nat × Nat × Nat)) (dateStr : String) :
    Option String :=
  if dateStr = "" then none
  else if '/' ∈ dateStr.data then some dateStr
  else if hasShortDatePattern dateStr.data then
    let parts := jsSplit '/' dateStr
    let month := (parts.get? 0).getD ""
    let day := (parts.get? 1).getD ""
    let shortYear := (parts.get? 2).getD ""
    let year :=
      match jsParseInt shortYear with
      | some n => if n < 50 then "20" ++ shortYear else "19" ++ shortYear
      | none => "19" ++ shortYear
    some (month ++ "/" ++ day ++ "/" ++ year)
  else
    match jsDate dateStr with
    | none => none
    | some (y, m0, d) => some (pad2 (m0 + 1) ++ "/" ++ pad2 d ++ "/" ++ toString y)

/-- A `new Date` oracle for inputs on which JavaScript yields an
`Invalid Date` (every generic token evaluated concretely in this
development is of that kind). -/
def noDateOracle : String → Option (Nat × Nat × Nat) := fun _ => none

/-! ## The distribution store

JavaScript objects used as string-keyed maps, embedded as insertion-
ordered association lists; assignment to an existing key replaces its
value in place, assignment to a fresh key appends. -/

/-- `obj[k] = v`. -/
def setKey {α : Type} : List (String × α) → String → α → List (String × α)
  | [], k, v => [(k, v)]
  | (k0, v0) :: rest, k, v =>
    if k0 = k then (k0, v) :: rest else (k0, v0) :: setKey rest k v

/-- `obj[k]`, `none` for `undefined`. -/
def getKey {α : Type} : List (String × α) → String → Option α
  | [], _ => none
  | (k0, v0) :: rest, k => if k0 = k then some v0 else getKey rest k

/-- One stored distribution record. -/
structure DistRecord where
  reinvestNAV : Dec
  totalDistributions : Dec
deriving DecidableEq

/-- The per-ticker, per-date store built by the parser. -/
abbrev DistStore := List (String × List (String × DistRecord))

/-- `distributionData[ticker][date] = rec` (the ticker's inner object is
guaranteed by the parser to exist; `getD []` mirrors that the lookup
cannot fail there). -/
def storeRec (data : DistStore) (tk date : String) (r : DistRecord) : DistStore :=
  setKey data tk (setKey ((getKey data tk).getD []) date r)

/-! ## The parser -/

/-- `isMoneyMarketFund(ticker)`: membership in the configured MMF list. -/
def isMoneyMarketFund (ticker : String) : Bool :=
  ["AFAXX"].contains ticker

/-- The ticker-line test `/^[A-Z]+$/.test(trimmedLine)`. -/
def isTickerLine (s : String) : Bool :=
  !s.data.isEmpty && s.data.all (fun c => 'A' ≤ c && c ≤ 'Z')

/-- `parts[i]` read as a string cell, with `undefined` collapsing to
`""`; in the source both `undefined` and `""` are falsy, and the two are
interchangeable in every use below. -/
def cellOrEmpty (parts : List String) (i : Nat) : String :=
  (parts.get? i).getD ""

/-- `Array.prototype.indexOf`, with `none` for `-1`. -/
def idxOf? : List String → String → Option Nat
  | [], _ => none
  | h :: t, x => if h = x then some 0 else (idxOf? t x).map (· + 1)

/-- The header test
`header.toLowerCase().includes('dividend') || header.toLowerCase().includes('cap. gains')`. -/
def isAmountHeader (h : String) : Bool :=
  containsSub "dividend".data (jsToLower h).data ||
  containsSub "cap. gains".data (jsToLower h).data

/-- `parts[j]?.replace('$', '') || '0'`: a missing cell, or one that
reduces to the empty string, is replaced by `"0"`. -/
def amountField (parts : List String) (j : Nat) : String :=
  match parts.get? j with
  | none => "0"
  | some p =>
    let r := removeDollar p
    if r = "" then "0" else r

/-- The mutual-fund loop summing every column whose header mentions
dividends or capital gains, skipping values that parse to `NaN`
(`if (!isNaN(value)) totalDistributions += value`). -/
def rowTotalGo (parts : List String) : List String → Nat → Dec → Dec
  | [], _, acc => acc
  | h :: hs, j, acc =>
    rowTotalGo parts hs (j + 1)
      (if isAmountHeader h then
        match jsParseFloat (amountField parts j) with
        | some v => acc.add v
        | none => acc
       else acc)

/-- `totalDistributions` computed for one mutual-fund data row. -/
def mutualRowTotal (headers parts : List String) : Dec :=
  rowTotalGo parts headers 0 ⟨0, 0⟩

/-- `reinvestNAV` computed for one mutual-fund data row: the
`Reinvest NAV` column when present, nonempty and parseable, else the
1.00 default (`if (isNaN(reinvestNAV)) reinvestNAV = 1.00`). -/
def mutualRowNAV (headers parts : List String) : Dec :=
  match idxOf? headers "Reinvest NAV" with
  | some i =>
    if cellOrEmpty parts i = "" then ⟨1, 0⟩
    else
      match jsParseFloat (removeDollar (cellOrEmpty parts i)) with
      | some v => v
      | none => ⟨1, 0⟩
  | none => ⟨1, 0⟩

/-- The date value of one mutual-fund data row.  The source initializes
`date = ""` and assigns `formatDate(...)` only when the `Record Date`
column exists and its cell is truthy; the record is stored only when the
final value is truthy, so `some ""` (the untouched initial value) and
`none` (a `null` from `formatDate`) both suppress the store. -/
def mutualRowDate (jsDate : String → Option (Nat × Nat × Nat))
    (headers parts : List String) : Option String :=
  match idxOf? headers "Record Date" with
  | some i =>
    if cellOrEmpty parts i = "" then some ""
    else formatDate jsDate (cellOrEmpty parts i)
  | none => some ""

/-- Parser state: the store built so far, the current ticker section,
the header row captured for a mutual-fund section, and the fund-type
flag of the current section. -/
structure PState where
  data : DistStore
  ticker : Option String
  headers : List String
  isMoneyMarket : Bool

/-- Processing of one non-empty, non-ticker line (the body of the
`else if (currentTicker)` branch), returning the updated store. -/
def processDataLine (jsDate : String → Option (Nat × Nat × Nat))
    (st : PState) (tk : String) (t : String) : DistStore :=
  if st.isMoneyMarket then
    let parts := (jsSplit '\t' t).map jsTrim
    if 2 ≤ parts.length then
      match jsParseFloat (cellOrEmpty parts 0), formatDate jsDate (cellOrEmpty parts 1) with
      | some rate, some d =>
        if d = "" then st.data
        else storeRec st.data tk d ⟨⟨1, 0⟩, rate⟩
      | some _, none => st.data
      | none, _ => st.data
    else st.data
  else if 0 < st.headers.length then
    let parts := (jsSplit '\t' t).map jsTrim
    if cellOrEmpty parts 0 = cellOrEmpty st.headers 0 then st.data
    else if 5 ≤ parts.length then
      match mutualRowDate jsDate st.headers parts with
      | some d =>
        if d = "" then st.data
        else storeRec st.data tk d ⟨mutualRowNAV st.headers parts, mutualRowTotal st.headers parts⟩
      | none => st.data
    else st.data
  else st.data

/-- The line loop of `processDistributionData`.  A ticker line resets the
section state and, for a non-money-market fund, captures the next raw
line (`lines[i + 1]`) as the header row; data lines are handled by
`processDataLine`; lines before any ticker line are skipped. -/
def processLines (jsDate : String → Option (Nat × Nat × Nat)) :
    List String → PState → PState
  | [], st => st
  | l :: rest, st =>
    let t := jsTrim l
    if t = "" then processLines jsDate rest st
    else if isTickerLine t then
      let mm := isMoneyMarketFund t
      let hdrs :=
        if mm then []
        else
          match rest with
          | nxt :: _ => (jsSplit '\t' nxt).map jsTrim
          | [] => []
      processLines jsDate rest ⟨setKey st.data t [], some t, hdrs, mm⟩
    else
      match st.ticker with
      | some tk => processLines jsDate rest { st with data := processDataLine jsDate st tk t }
      | none => processLines jsDate rest st

/-- The source's `processDistributionData(fileContent)` on string input:
split on newlines and run the line loop from the empty state. -/
def processDistributionData (jsDate : String → Option (Nat × Nat × Nat))
    (fileContent : String) : DistStore :=
  (processLines jsDate (jsSplit '\n' fileContent) ⟨[], none, [], false⟩).data

/-- A JavaScript argument that may fail the implicit string contract. -/
inductive JSInput where
  | str : String → JSInput
  | nonString : JSInput

/-- `processDistributionData` including its top-level `try`/`catch`: a
non-string argument makes `fileContent.split('\n')` throw a `TypeError`,
which the `catch` turns into the empty object. -/
def processDistributionDataJS (jsDate : String → Option (Nat × Nat × Nat)) :
    JSInput → DistStore
  | .str s => processDistributionData jsDate s
  | .nonString => []

/-- The per-ticker loader `loadFundByTicker(ticker)` of the
split-files parser revision.  The `fetch` collaborator's outcome is the
explicit `fetchResult` argument (`Except.error` for a missing resource or
non-ok status, either of which the source turns into a thrown error); the
parse step invoked on the fetched text is the explicit `parse` argument,
whose `Except.error` models a throw escaping it (that revision's parser
body does not survive parsing as JavaScript, so only the loader's
catch-all structure is embodied here).  Every caught failure yields
`{ [ticker]: {} }`. -/
def loadFundByTicker (parse : String → String → Except Unit DistStore)
    (ticker : String) (fetchResult : Except Unit String) : DistStore :=
  match fetchResult with
  | .error _ => [(ticker, [])]
  | .ok content =>
    match parse content ticker with
    | .ok res => res
    | .error _ => [(ticker, [])]

/-! ## Spec-side predicates

These two definitions follow the specification's words (not the source);
they exist only to state claims about the date normalizer against the
spec's notions of "canonical date" and "valid calendar date". -/

/-- Modelled from the spec: a token "already in canonical `MM/DD/YYYY`
form" — two digits, slash, two digits, slash, four digits. -/
def isCanonicalDateString (s : String) : Bool :=
  decide (s.data.length = 10) &&
  (s.data.getD 0 ' ').isDigit && (s.data.getD 1 ' ').isDigit && (s.data.getD 2 ' ' == '/') &&
  (s.data.getD 3 ' ').isDigit && (s.data.getD 4 ' ').isDigit && (s.data.getD 5 ' ' == '/') &&
  (s.data.getD 6 ' ').isDigit && (s.data.getD 7 ' ').isDigit &&
  (s.data.getD 8 ' ').isDigit && (s.data.getD 9 ' ').isDigit

/-- Modelled from the spec: the token "parses to a valid calendar date"
(§4.2) — a numeric slash-delimited month/day/year with month and day in
calendar range, or a token the generic `new Date` parse (the oracle)
accepts. -/
def specParsesToCalendarDate (o : String → Option (Nat × Nat × Nat)) (s : String) : Bool :=
  (match (jsSplit '/' s).map String.data with
   | [m, d, y] =>
     (!m.isEmpty && m.all Char.isDigit) && (!d.isEmpty && d.all Char.isDigit) &&
     (!y.isEmpty && y.all Char.isDigit) &&
     decide (1 ≤ digitsToNat m) && decide (digitsToNat m ≤ 12) &&
     decide (1 ≤ digitsToNat d) && decide (digitsToNat d ≤ 31)
   | _ => false) || (o s).isSome

/-! ## Helper lemmas -/

theorem getKey_setKey_self {α : Type} (m : List (String × α)) (k : String) (v : α) :
    getKey (setKey m k v) k = some v := by
  induction m with
  | nil => simp [setKey, getKey]
  | cons p rest ih =>
    by_cases h : p.1 = k
    · simp [setKey, getKey, h]
    · simp [setKey, getKey, h, ih]

theorem getKey_setKey_ne {α : Type} (m : List (String × α)) (k k' : String) (v : α)
    (h : k ≠ k') : getKey (setKey m k v) k' = getKey m k' := by
  induction m with
  | nil => simp [setKey, getKey, h]
  | cons p rest ih =>
    by_cases h0 : p.1 = k
    · simp [setKey, getKey, h0, h]
    · by_cases h1 : p.1 = k'
      · simp [setKey, getKey, h0, h1, Ne.symm h]
      · simp [setKey, getKey, h0, h1, ih]

theorem getD_mem (l : List Char) : ∀ (i : Nat) (d : Char), i < l.length → l.getD i d ∈ l := by
  induction l with
  | nil => intro i d h; simp at h
  | cons x xs ih =>
    intro i d h
    cases i with
    | zero => simp [List.getD]
    | succ n =>
      have hx := ih n d (Nat.lt_of_succ_lt_succ (by simpa using h))
      simp only [List.getD_cons_succ]
      exact List.mem_cons_of_mem _ hx

theorem data_append (a b : String) : (a ++ b).data = a.data ++ b.data := by
  rcases a with ⟨la⟩
  rcases b with ⟨lb⟩
  rfl

theorem ne_empty_of_data_mem {c : Char} {s : String} (h : c ∈ s.data) : s ≠ "" := by
  intro he
  subst he
  simp at h

theorem shortDateAt_mem {l : List Char} (h : shortDateAt l = true) : '/' ∈ l := by
  simp only [shortDateAt, Bool.and_eq_true, decide_eq_true_eq, beq_iff_eq] at h
  have hlen : 8 ≤ l.length := h.1.1.1.1.1.1.1.1
  have h2 : l.getD 2 ' ' = '/' := h.1.1.1.1.1.2
  have hm := getD_mem l 2 ' ' (lt_of_lt_of_le (by norm_num) hlen)
  rwa [h2] at hm

theorem hasShortDatePattern_mem : ∀ {l : List Char}, hasShortDatePattern l = true → '/' ∈ l := by
  intro l
  induction l with
  | nil => intro h; simp [hasShortDatePattern] at h
  | cons c cs ih =>
    intro h
    simp only [hasShortDatePattern, Bool.or_eq_true] at h
    rcases h with h | h
    · exact shortDateAt_mem h
    · exact List.mem_cons_of_mem _ (ih h)

theorem canonical_slash_mem {s : String} (h : isCanonicalDateString s = true) :
    '/' ∈ s.data := by
  simp only [isCanonicalDateString, Bool.and_eq_true, decide_eq_true_eq, beq_iff_eq] at h
  have hlen : s.data.length = 10 := h.1.1.1.1.1.1.1.1.1.1
  have h2 : s.data.getD 2 ' ' = '/' := h.1.1.1.1.1.1.1.2
  have hm := getD_mem s.data 2 ' ' (by rw [hlen]; norm_num)
  rwa [h2] at hm

theorem formatDate_passthrough (o : String → Option (Nat × Nat × Nat)) (s : String)
    (h1 : s ≠ "") (h2 : '/' ∈ s.data) : formatDate o s = some s := by
  unfold formatDate
  rw [if_neg h1, if_pos h2]

theorem formatDate_output (o : String → Option (Nat × Nat × Nat)) (s t : String)
    (h : formatDate o s = some t) : t ≠ "" ∧ '/' ∈ t.data := by
  unfold formatDate at h
  by_cases he : s = ""
  · rw [if_pos he] at h; simp at h
  · rw [if_neg he] at h
    by_cases hs : '/' ∈ s.data
    · rw [if_pos hs] at h
      have ht : t = s := by simpa using h.symm
      subst ht
      exact ⟨he, hs⟩
    · rw [if_neg hs] at h
      by_cases hp : hasShortDatePattern s.data = true
      · rw [if_pos hp] at h
        simp only [Option.some.injEq] at h
        have hmem : '/' ∈ t.data := by
          rw [← h]
          simp [data_append]
        exact ⟨ne_empty_of_data_mem hmem, hmem⟩
      · rw [if_neg hp] at h
        cases hj : o s with
        | none => rw [hj] at h; simp at h
        | some trip =>
          rcases trip with ⟨y, m0, d⟩
          rw [hj] at h
          simp only [Option.some.injEq] at h
          have hmem : '/' ∈ t.data := by
            rw [← h]
            simp [data_append]
          exact ⟨ne_empty_of_data_mem hmem, hmem⟩

theorem formatDate_idem (o : String → Option (Nat × Nat × Nat)) (s t : String)
    (h : formatDate o s = some t) : formatDate o t = some t := by
  obtain ⟨h1, h2⟩ := formatDate_output o s t h
  exact formatDate_passthrough o t h1 h2

theorem formatDate_none (o : String → Option (Nat × Nat × Nat)) (s : String)
    (hs : ¬('/' ∈ s.data)) (ho : o s = none) : formatDate o s = none := by
  unfold formatDate
  by_cases he : s = ""
  · rw [if_pos he]
  · rw [if_neg he, if_neg hs]
    have hp : hasShortDatePattern s.data = false := by
      cases hps : hasShortDatePattern s.data
      · rfl
      · exact absurd (hasShortDatePattern_mem hps) hs
    rw [if_neg (by simp [hp]), ho]

/-- Invariant: every record stored under a money-market ticker has the
fixed 1.00 reinvest NAV. -/
def MMFNavOK (data : DistStore) : Prop :=
  ∀ tk tbl, getKey data tk = some tbl → isMoneyMarketFund tk = true →
    ∀ d r, getKey tbl d = some r → r.reinvestNAV = ⟨1, 0⟩

theorem MMFNavOK_nil : MMFNavOK [] := by
  intro tk tbl h
  simp [getKey] at h

theorem MMFNavOK_setEmpty {data : DistStore} (h : MMFNavOK data) (t : String) :
    MMFNavOK (setKey data t []) := by
  intro tk tbl hget hmm d r hr
  by_cases he : t = tk
  · subst he
    rw [getKey_setKey_self] at hget
    cases hget
    simp [getKey] at hr
  · rw [getKey_setKey_ne _ _ _ _ he] at hget
    exact h tk tbl hget hmm d r hr

theorem MMFNavOK_storeRec {data : DistStore} (h : MMFNavOK data) (tk d : String)
    (r : DistRecord) (hr : isMoneyMarketFund tk = true → r.reinvestNAV = ⟨1, 0⟩) :
    MMFNavOK (storeRec data tk d r) := by
  intro tk' tbl' hget hmm d' r' hget'
  unfold storeRec at hget
  by_cases he : tk = tk'
  · subst he
    rw [getKey_setKey_self] at hget
    cases hget
    by_cases hd : d = d'
    · subst hd
      rw [getKey_setKey_self] at hget'
      cases hget'
      exact hr hmm
    · rw [getKey_setKey_ne _ _ _ _ hd] at hget'
      cases hg : getKey data tk with
      | none => rw [hg] at hget'; simp [getKey] at hget'
      | some tbl0 =>
        rw [hg] at hget'
        exact h tk tbl0 hg hmm d' r' hget'
  · rw [getKey_setKey_ne _ _ _ _ he] at hget
    exact h tk' tbl' hget hmm d' r' hget'

theorem processDataLine_cases (o : String → Option (Nat × Nat × Nat)) (st : PState)
    (tk t : String) :
    processDataLine o st tk t = st.data ∨
    ∃ d r, processDataLine o st tk t = storeRec st.data tk d r ∧
      (st.isMoneyMarket = true → r.reinvestNAV = ⟨1, 0⟩) := by
  unfold processDataLine
  cases hM : st.isMoneyMarket with
  | true =>
    simp only [hM, if_true]
    by_cases hl : 2 ≤ ((jsSplit '\t' t).map jsTrim).length
    · simp only [if_pos hl]
      rcases hx : jsParseFloat (cellOrEmpty ((jsSplit '\t' t).map jsTrim) 0) with _ | rate
      · simp [hx]
      · rcases hy : formatDate o (cellOrEmpty ((jsSplit '\t' t).map jsTrim) 1) with _ | d
        · simp [hx, hy]
        · simp only [hx, hy]
          by_cases hd : d = ""
          · simp [hd]
          · simp only [if_neg hd]
            right
            exact ⟨d, _, rfl, fun _ => rfl⟩
    · left
      rw [if_neg hl]
  | false =>
    simp only [hM, Bool.false_eq_true, if_false]
    by_cases hh : 0 < st.headers.length
    · simp only [if_pos hh]
      by_cases h0 : cellOrEmpty ((jsSplit '\t' t).map jsTrim) 0 = cellOrEmpty st.headers 0
      · simp [h0]
      · simp only [if_neg h0]
        by_cases hl : 5 ≤ ((jsSplit '\t' t).map jsTrim).length
        · simp only [if_pos hl]
          rcases hy : mutualRowDate o st.headers ((jsSplit '\t' t).map jsTrim) with _ | d
          · simp [hy]
          · simp only [hy]
            by_cases hd : d = ""
            · simp [hd]
            · simp only [if_neg hd]
              right
              refine ⟨d, _, rfl, ?_⟩
              intro hc
              exact hc.elim
        · left
          rw [if_neg hl]
    · left
      rw [if_neg hh]

/-- The defining equation of the line loop on a cons cell, with the
local bindings expanded. -/
theorem processLines_cons (o : String → Option (Nat × Nat × Nat)) (l : String)
    (rest : List String) (st : PState) :
    processLines o (l :: rest) st =
      if jsTrim l = "" then processLines o rest st
      else if isTickerLine (jsTrim l) = true then
        processLines o rest
          ⟨setKey st.data (jsTrim l) [], some (jsTrim l),
            (if isMoneyMarketFund (jsTrim l) = true then []
             else
               match rest with
               | nxt :: _ => (jsSplit '\t' nxt).map jsTrim
               | [] => []),
            isMoneyMarketFund (jsTrim l)⟩
      else
        match st.ticker with
        | some tk => processLines o rest { st with data := processDataLine o st tk (jsTrim l) }
        | none => processLines o rest st := rfl

theorem processLines_navOK (o : String → Option (Nat × Nat × Nat)) :
    ∀ (ls : List String) (st : PState),
      MMFNavOK st.data →
      (∀ tk, st.ticker = some tk → st.isMoneyMarket = isMoneyMarketFund tk) →
      MMFNavOK (processLines o ls st).data := by
  intro ls
  induction ls with
  | nil =>
    intro st h _
    simpa [processLines] using h
  | cons l rest ih =>
    intro st h hok
    rw [processLines_cons]
    by_cases ht : jsTrim l = ""
    · rw [if_pos ht]
      exact ih st h hok
    · rw [if_neg ht]
      by_cases htk : isTickerLine (jsTrim l) = true
      · rw [if_pos htk]
        apply ih
        · exact MMFNavOK_setEmpty h (jsTrim l)
        · intro tk h'
          simp only [Option.some.injEq] at h'
          subst h'
          rfl
      · rw [if_neg htk]
        cases hc : st.ticker with
        | none =>
          simp only [hc]
          exact ih st h hok
        | some tk =>
          simp only [hc]
          apply ih
          · rcases processDataLine_cases o st tk (jsTrim l) with hcase | ⟨d, r, hcase, hr⟩
            · simpa [hcase] using h
            · simp only [hcase]
              refine MMFNavOK_storeRec h tk d r (fun hm => hr ?_)
              rw [hok tk hc]
              exact hm
          · intro tk' h'
            have h2 : some tk = some tk' := h'
            cases h2
            exact hok tk hc

/-- C2 as a reusable statement: any record the parser stores under a
money-market ticker carries the fixed NAV. -/
theorem parse_mmf_nav (o : String → Option (Nat × Nat × Nat)) (content : String)
    (tk : String) (tbl : List (String × DistRecord)) (d : String) (r : DistRecord)
    (hmm : isMoneyMarketFund tk = true)
    (htbl : getKey (processDistributionData o content) tk = some tbl)
    (hr : getKey tbl d = some r) : r.reinvestNAV = ⟨1, 0⟩ := by
  have h := processLines_navOK o (jsSplit '\n' content) ⟨[], none, [], false⟩
    MMFNavOK_nil (by intro tk0 h0; simp at h0)
  exact h tk tbl htbl hmm d r hr

theorem Dec.add_zero_zero (a : Dec) : a.add ⟨0, 0⟩ = a := by
  simp [Dec.add]

theorem get?_set_of_some {α : Type} : ∀ (l : List α) (j : Nat) (p v : α),
    l.get? j = some p → (l.set j v).get? j = some v := by
  intro l
  induction l with
  | nil => intro j p v h; simp at h
  | cons x xs ih =>
    intro j p v h
    cases j with
    | zero => simp
    | succ n => simpa using ih n p v (by simpa using h)

theorem get?_set_ne {α : Type} : ∀ (l : List α) (i j : Nat) (v : α), i ≠ j →
    (l.set j v).get? i = l.get? i := by
  intro l
  induction l with
  | nil => intro i j v _; simp
  | cons x xs ih =>
    intro i j v h
    cases j with
    | zero =>
      cases i with
      | zero => exact absurd rfl h
      | succ m => simp
    | succ n =>
      cases i with
      | zero => simp
      | succ m => simpa using ih m n v (fun he => h (by rw [he]))

theorem amountField_set_ne (parts : List String) (i j : Nat) (h : i ≠ j) :
    amountField (parts.set j "0") i = amountField parts i := by
  unfold amountField
  rw [get?_set_ne parts i j "0" h]

theorem amountField_set_self (parts : List String) (j : Nat) (p : String)
    (hp : parts.get? j = some p) : amountField (parts.set j "0") j = "0" := by
  unfold amountField
  rw [get?_set_of_some parts j p "0" hp]
  decide

theorem rowTotalGo_set_zero (parts : List String) (j : Nat)
    (hj : jsParseFloat (amountField parts j) = none) :
    ∀ (hs : List String) (i : Nat) (acc : Dec),
      rowTotalGo parts hs i acc = rowTotalGo (parts.set j "0") hs i acc := by
  have hsome : ∃ p, parts.get? j = some p := by
    cases hq : parts.get? j with
    | some p => exact ⟨p, rfl⟩
    | none =>
      have ha : amountField parts j = "0" := by unfold amountField; rw [hq]
      rw [ha] at hj
      exact absurd hj (by decide)
  obtain ⟨p, hp⟩ := hsome
  intro hs
  induction hs with
  | nil => intro i acc; rfl
  | cons h t ih =>
    intro i acc
    simp only [rowTotalGo]
    by_cases hi : i = j
    · subst hi
      have hset : amountField (parts.set i "0") i = "0" :=
        amountField_set_self parts i p hp
      have h0 : jsParseFloat "0" = some (⟨0, 0⟩ : Dec) := by decide
      by_cases hah : isAmountHeader h = true
      · simp only [hah, if_true, hj, hset, h0]
        simpa [Dec.add_zero_zero] using ih (i + 1) acc
      · rw [if_neg hah, if_neg hah]
        exact ih (i + 1) acc
    · rw [amountField_set_ne parts i j hi]
      exact ih (i + 1) _

theorem string_eta (s : String) : (⟨s.data⟩ : String) = s := by
  rcases s with ⟨d⟩
  rfl

theorem splitOnChar_not_mem (sep : Char) : ∀ (l : List Char), sep ∉ l →
    splitOnChar sep l = [l] := by
  intro l
  induction l with
  | nil => intro _; rfl
  | cons c cs ih =>
    intro h
    have hc : ¬c = sep := fun he => h (by rw [he]; exact List.mem_cons_self _ _)
    have hcs : sep ∉ cs := fun hm => h (List.mem_cons_of_mem _ hm)
    simp only [splitOnChar, if_neg hc, ih hcs]

theorem jsSplit_not_mem (sep : Char) (s : String) (h : sep ∉ s.data) :
    jsSplit sep s = [s] := by
  unfold jsSplit
  rw [splitOnChar_not_mem sep s.data h]
  simp [string_eta]

/-! ## The claims -/

/-- C1: the claim states that duplicate dates within one ticker section
merge by summing `totalDistributions`.  The code instead assigns
`distributionData[ticker][date] = {...}` for every row, so on the spec's
own money-market scenario the stored total is the LAST row's rate
(0.0002), not the sum 0.0003 — and the two-digit date key is passed
through unexpanded as well.  This theorem evaluates the embedded parser
at that failing input. -/
theorem C1_duplicate_dates_overwrite_not_sum :
    processDistributionData noDateOracle "AFAXX\n0.0001\t01/02/24\n0.0002\t01/02/24\n" =
      [("AFAXX", [("01/02/24", ⟨⟨1, 0⟩, ⟨2, 4⟩⟩)])] ∧
    (⟨2, 4⟩ : Dec).val ≠ 1 / 10000 + 2 / 10000 := by
  constructor
  · decide
  · norm_num [Dec.val]

/-- C2: every record the parser stores under a ticker classified as
money-market carries `reinvestNAV == 1.00`, for every file content and
every `new Date` oracle. -/
theorem C2_mmf_records_have_unit_nav (o : String → Option (Nat × Nat × Nat))
    (content : String) (tk : String) (tbl : List (String × DistRecord))
    (d : String) (r : DistRecord)
    (hmm : isMoneyMarketFund tk = true)
    (htbl : getKey (processDistributionData o content) tk = some tbl)
    (hr : getKey tbl d = some r) : r.reinvestNAV.val = 1 := by
  rw [parse_mmf_nav o content tk tbl d r hmm htbl hr]
  norm_num [Dec.val]

theorem C2_mmf_records_have_unit_nav_witness :
    (⟨⟨1, 0⟩, ⟨5, 1⟩⟩ : DistRecord).reinvestNAV.val = 1 :=
  C2_mmf_records_have_unit_nav noDateOracle "AFAXX\n0.5\t01/02/24\n" "AFAXX"
    [("01/02/24", ⟨⟨1, 0⟩, ⟨5, 1⟩⟩)] "01/02/24" ⟨⟨1, 0⟩, ⟨5, 1⟩⟩
    (by decide) (by decide) (by decide)

/-- C3 counterexample: the claim asserts every stored `reinvestNAV` is
positive.  A mutual-fund row whose `Reinvest NAV` cell is the parseable
value `-5` is stored as-is: the fallback to 1.00 fires only on `NaN`,
not on non-positive values. -/
theorem C3_counterexample_negative_nav_stored :
    getKey ((getKey (processDistributionData noDateOracle
        "ANCFX\nRecord Date\tReinvest NAV\tDividend\tCap. Gains\tX\n01/15/24\t-5\t0\t0\t0\n")
        "ANCFX").getD []) "01/15/24" = some ⟨⟨-5, 0⟩, ⟨0, 0⟩⟩ ∧
    ¬0 < (⟨-5, 0⟩ : Dec).val := by
  constructor
  · decide
  · norm_num [Dec.val]

/-- C3 as amended: whenever the `Reinvest NAV` column is missing from
the header row, or its cell is absent/empty, or the cleaned cell fails
numeric parsing, the row's stored `reinvestNAV` falls back to exactly
1.00 (a parseable non-positive value, however, is stored as-is). -/
theorem C3_nav_fallback_to_one (headers parts : List String)
    (h : ∀ i, idxOf? headers "Reinvest NAV" = some i →
      cellOrEmpty parts i = "" ∨ jsParseFloat (removeDollar (cellOrEmpty parts i)) = none) :
    (mutualRowNAV headers parts).val = 1 := by
  cases hix : idxOf? headers "Reinvest NAV" with
  | none =>
    simp only [mutualRowNAV, hix]
    norm_num [Dec.val]
  | some i =>
    rcases h i hix with h1 | h1
    · simp only [mutualRowNAV, hix, if_pos h1]
      norm_num [Dec.val]
    · by_cases hc : cellOrEmpty parts i = ""
      · simp only [mutualRowNAV, hix, if_pos hc]
        norm_num [Dec.val]
      · simp only [mutualRowNAV, hix, if_neg hc, h1]
        norm_num [Dec.val]

theorem C3_nav_fallback_to_one_witness :
    (mutualRowNAV ["Reinvest NAV"] ["abc"]).val = 1 :=
  C3_nav_fallback_to_one ["Reinvest NAV"] ["abc"]
    (by intro i hi; cases hi; right; decide)

/-- C4: an amount-bearing field that is empty or non-numeric after
cleaning contributes exactly zero to the row's `totalDistributions`:
replacing such a field by the literal `"0"` leaves the computed total
unchanged.  (A missing or empty cell already reads as `"0"` via
`parts[j]?.replace('$','') || '0'`, and a cell whose cleaned text fails
`parseFloat` is skipped by the `isNaN` guard, so the stored total is
always an actual number, never `NaN`.) -/
theorem C4_unparseable_amount_contributes_zero (headers parts : List String) (j : Nat)
    (hj : jsParseFloat (amountField parts j) = none) :
    mutualRowTotal headers parts = mutualRowTotal headers (parts.set j "0") := by
  unfold mutualRowTotal
  exact rowTotalGo_set_zero parts j hj headers 0 ⟨0, 0⟩

theorem C4_unparseable_amount_contributes_zero_witness :
    jsParseFloat (amountField ["x$y"] 0) = none ∧
    mutualRowTotal ["Dividend"] ["x$y"] = mutualRowTotal ["Dividend"] (["x$y"].set 0 "0") :=
  ⟨by decide, C4_unparseable_amount_contributes_zero ["Dividend"] ["x$y"] 0 (by decide)⟩

/-- C5: a token already in canonical `MM/DD/YYYY` shape is returned
unchanged by `formatDate` (the `includes('/')` passthrough), and
`formatDate` is idempotent on every value it returns. -/
theorem C5_canonical_passthrough_and_idempotent (o : String → Option (Nat × Nat × Nat)) :
    (∀ s, isCanonicalDateString s = true → formatDate o s = some s) ∧
    (∀ s t, formatDate o s = some t → formatDate o t = some t) := by
  constructor
  · intro s hs
    have hm := canonical_slash_mem hs
    exact formatDate_passthrough o s (ne_empty_of_data_mem hm) hm
  · intro s t h
    exact formatDate_idem o s t h

theorem C5_canonical_passthrough_and_idempotent_witness :
    formatDate noDateOracle "01/02/2024" = some "01/02/2024" :=
  (C5_canonical_passthrough_and_idempotent noDateOracle).1 "01/02/2024" (by decide)

/-- C6 counterexample: the claim asserts every token that parses to no
valid calendar date yields `null` and a skipped row.  The slash-bearing
token `"xy/zw/qp"` is no calendar date, yet `formatDate` passes it
through and the money-market row is stored under it verbatim. -/
theorem C6_counterexample_invalid_slash_token_stored :
    specParsesToCalendarDate noDateOracle "xy/zw/qp" = false ∧
    formatDate noDateOracle "xy/zw/qp" = some "xy/zw/qp" ∧
    processDistributionData noDateOracle "AFAXX\n0.5\txy/zw/qp\n" =
      [("AFAXX", [("xy/zw/qp", ⟨⟨1, 0⟩, ⟨5, 1⟩⟩)])] :=
  ⟨by decide, by decide, by decide⟩

/-- C6 as amended: for tokens containing no slash, an invalid date (one
the generic `new Date` parse rejects) makes `formatDate` return `null`
without throwing, and on the spec's scenario the `"not-a-date"` row is
dropped while the following row is still processed. -/
theorem C6_nonslash_invalid_date_skipped (o : String → Option (Nat × Nat × Nat)) :
    (∀ s, '/' ∉ s.data → o s = none → formatDate o s = none) ∧
    processDistributionData noDateOracle "AFAXX\n0.5\tnot-a-date\n0.6\t01/03/24\n" =
      [("AFAXX", [("01/03/24", ⟨⟨1, 0⟩, ⟨6, 1⟩⟩)])] := by
  constructor
  · intro s hs ho
    exact formatDate_none o s hs ho
  · decide

theorem C6_nonslash_invalid_date_skipped_witness :
    formatDate noDateOracle "not-a-date" = none :=
  (C6_nonslash_invalid_date_skipped noDateOracle).1 "not-a-date" (by decide) rfl

/-- C7 counterexample: the claim asserts comma is accepted as a field
delimiter.  A comma-delimited money-market row produces no stored entry
at all, while the same row tab-delimited is stored. -/
theorem C7_counterexample_comma_row_not_parsed :
    processDistributionData noDateOracle "AFAXX\n0.0001,01/02/24\n" = [("AFAXX", [])] ∧
    processDistributionData noDateOracle "AFAXX\n0.0001\t01/02/24\n" =
      [("AFAXX", [("01/02/24", ⟨⟨1, 0⟩, ⟨1, 4⟩⟩)])] :=
  ⟨by decide, by decide⟩

/-- C7 as amended: data rows are split on tabs only; a data line
containing no tab is never stored (one field cannot pass the
money-market two-field or the mutual-fund five-field requirement). -/
theorem C7_rows_split_on_tab_only (o : String → Option (Nat × Nat × Nat)) (st : PState)
    (tk t : String) (h : '\t' ∉ t.data) :
    processDataLine o st tk t = st.data := by
  have hs : (jsSplit '\t' t).map jsTrim = [jsTrim t] := by
    rw [jsSplit_not_mem _ _ h]
    rfl
  unfold processDataLine
  rw [hs]
  cases hM : st.isMoneyMarket with
  | true =>
    simp only [hM, if_true]
    rw [if_neg (by simp : ¬(2 : Nat) ≤ [jsTrim t].length)]
  | false =>
    simp only [hM, Bool.false_eq_true, if_false]
    by_cases hh : 0 < st.headers.length
    · rw [if_pos hh]
      by_cases h0 : cellOrEmpty [jsTrim t] 0 = cellOrEmpty st.headers 0
      · rw [if_pos h0]
      · rw [if_neg h0, if_neg (by simp : ¬(5 : Nat) ≤ [jsTrim t].length)]
    · rw [if_neg hh]

theorem C7_rows_split_on_tab_only_witness :
    processDataLine noDateOracle ⟨[], some "AFAXX", [], true⟩ "AFAXX" "0.0001,01/02/24" = [] :=
  C7_rows_split_on_tab_only noDateOracle ⟨[], some "AFAXX", [], true⟩ "AFAXX"
    "0.0001,01/02/24" (by decide)

/-- C8 counterexample: the claim's scenario expects one entry at
`01/15/2024` with NAV 12.34 and total 0.15; the parser stores nothing at
all for that input — neither under the four-digit nor under the
two-digit date key. -/
theorem C8_counterexample_scenario_stores_nothing :
    getKey ((getKey (processDistributionData noDateOracle
        "ANCFX\nRecord Date\tReinvest NAV\tDividend\tCap. Gains\n01/15/24\t$12.34\t$0.10\t$0.05\n")
        "ANCFX").getD []) "01/15/2024" = none ∧
    getKey ((getKey (processDistributionData noDateOracle
        "ANCFX\nRecord Date\tReinvest NAV\tDividend\tCap. Gains\n01/15/24\t$12.34\t$0.10\t$0.05\n")
        "ANCFX").getD []) "01/15/24" = none :=
  ⟨by decide, by decide⟩

/-- C8 as amended: on the spec's four-column mutual-fund scenario the
parser stores no entry, because a mutual-fund data row must have at
least five tab-separated fields (`parts.length >= 5`); the section's
table stays empty. -/
theorem C8_four_field_mutual_row_dropped :
    processDistributionData noDateOracle
      "ANCFX\nRecord Date\tReinvest NAV\tDividend\tCap. Gains\n01/15/24\t$12.34\t$0.10\t$0.05\n" =
      [("ANCFX", [])] := by decide

/-- C9: a failed fetch, or a parse step that throws, makes the loader
return the empty table for that ticker instead of propagating; and the
string parser's own catch-all turns a non-string argument into the
empty result. -/
theorem C9_failures_yield_empty_result :
    (∀ parse tk, loadFundByTicker parse tk (Except.error ()) = [(tk, [])]) ∧
    (∀ parse tk content, parse content tk = Except.error () →
      loadFundByTicker parse tk (Except.ok content) = [(tk, [])]) ∧
    (∀ o, processDistributionDataJS o JSInput.nonString = []) := by
  refine ⟨fun parse tk => rfl, fun parse tk content h => ?_, fun o => rfl⟩
  simp only [loadFundByTicker, h]

theorem C9_failures_yield_empty_result_witness :
    loadFundByTicker (fun _ _ => Except.error ()) "AFAXX" (Except.ok "ANCFX") =
      [("AFAXX", [])] :=
  C9_failures_yield_empty_result.2.1 (fun _ _ => Except.error ()) "AFAXX" "ANCFX" rfl

/-- C10: any input containing a slash is returned by `formatDate`
unchanged and unvalidated; in particular every string matching the
two-digit-year pattern contains a slash, so the 50-year-pivot expansion
branch can never run; and the invalid token `"ab/cd/ef"` ends up
verbatim as a stored date key. -/
theorem C10_slash_passthrough_no_validation (o : String → Option (Nat × Nat × Nat)) :
    (∀ s, '/' ∈ s.data → formatDate o s = some s) ∧
    (∀ s, hasShortDatePattern s.data = true → formatDate o s = some s) ∧
    processDistributionData noDateOracle "AFAXX\n0.5\tab/cd/ef\n" =
      [("AFAXX", [("ab/cd/ef", ⟨⟨1, 0⟩, ⟨5, 1⟩⟩)])] := by
  refine ⟨?_, ?_, by decide⟩
  · intro s hm
    exact formatDate_passthrough o s (ne_empty_of_data_mem hm) hm
  · intro s hp
    have hm := hasShortDatePattern_mem hp
    exact formatDate_passthrough o s (ne_empty_of_data_mem hm) hm

theorem C10_slash_passthrough_no_validation_witness :
    formatDate noDateOracle "01/02/24" = some "01/02/24" :=
  (C10_slash_passthrough_no_validation noDateOracle).1 "01/02/24" (by decide)
